import Mathlib

/-!
Shallow embedding of `src/main.rs` (a toy front end for a language with
`let <name> be <value>` statements): the lexer (`trim_newlines`,
`determine_kind` with its inner `is_hex`, `lex`) and the parser (`parse`).

Modelling conventions:
* Rust `String`s are `List Char`; byte-level operations (`word[2..]`,
  `str::len`) are modelled through `Char.utf8Size`.
* A Rust panic is `none` (for the lexer, which is otherwise total) or an
  explicit `panicked` constructor (for the parser).
* The parser's `while` loop can spin forever on some token sequences, so
  it is modelled with explicit fuel (`parseLoop`); `outOfFuel` means the
  given number of iterations reached neither loop exit nor a panic.
-/

namespace RT

/-- `TokenKind` from main.rs. -/
inductive TokenKind where
  | Word
  | Keyword
  | Operator
  | Numeric
deriving DecidableEq

/-- `Pos` from main.rs: file identifier, row, column. -/
structure Pos where
  file : List Char
  row : Nat
  col : Nat
deriving DecidableEq

/-- `Token` from main.rs. -/
structure Token where
  value : List Char
  position : Pos
  kind : TokenKind
deriving DecidableEq

/-- `Token::new()`: value "empty_token", `Pos::new()`, kind `Word`.
(Only used as the junk value of `List.getD`; the parser loop indexes in
bounds whenever its guard holds.) -/
instance : Inhabited Token :=
  ⟨⟨"empty_token".toList, ⟨[], 0, 0⟩, TokenKind.Word⟩⟩

/-- `static KEYWORDS: [&str; 3] = ["let", "be", "fn"]`. -/
def KEYWORDS : List (List Char) := ["let".toList, "be".toList, "fn".toList]

/-- `static OPERATORS: [&str; 5] = ["=", "+", "-", "(", ")"]`. -/
def OPERATORS : List (List Char) :=
  ["=".toList, "+".toList, "-".toList, "(".toList, ")".toList]

/-- One conditional pop of the Rust `trim_newlines` loop body:
`if s.ends_with(c) { s.pop(); }`. -/
def popIfLast (s : List Char) (c : Char) : List Char :=
  if s.getLast? = some c then s.dropLast else s

/-- Helper for `trim_newlines`, working on the reversed character list:
removes the leading run of newline / carriage-return characters. -/
def trimAux : List Char → List Char
  | [] => []
  | c :: rest => if c = '\n' ∨ c = '\r' then trimAux rest else c :: rest

/-- `StringUtils::trim_newlines` from main.rs.  The Rust `while` loop pops
trailing `'\n'` / `'\r'` characters until neither remains at the end; its
net effect is dropping the maximal trailing run of those two characters.
The theorem `trim_newlines_eq_loop` below proves that this definition
satisfies exactly the Rust loop's step equation. -/
def trim_newlines (s : List Char) : List Char := (trimAux s.reverse).reverse

/-- UTF-8 byte length of a string, Rust's `str::len()`. -/
def utf8Len (s : List Char) : Nat := (s.map Char.utf8Size).sum

/-- The Rust byte slice `word[2..]`: `none` models the panic raised when
byte index 2 is past the end of the string or not on a character
boundary. -/
def sliceFrom2 : List Char → Option (List Char)
  | [] => none
  | c :: rest =>
    if c.utf8Size = 1 then
      match rest with
      | [] => none
      | c2 :: rest2 => if c2.utf8Size = 1 then some rest2 else none
    else if c.utf8Size = 2 then some rest else none

/-- Rust `char::is_digit(16)`: decimal digits plus `a`-`f` / `A`-`F`. -/
def isHexDigitC (c : Char) : Bool :=
  c.isDigit || (decide ('a' ≤ c) && decide (c ≤ 'f')) ||
    (decide ('A' ≤ c) && decide (c ≤ 'F'))

/-- The inner `is_hex` of `determine_kind` in main.rs.  It iterates over
the slice `word[2..]` BEFORE the `word.len() >= 2` check runs, so it
panics (`none`) whenever the word's byte length is below 2; otherwise it
returns `false` on the first non-hex character of the suffix, and finally
checks the length and the two leading characters `'0'`, `'x'`. -/
def is_hex (word : List Char) : Option Bool :=
  match sliceFrom2 word with
  | none => none
  | some tail =>
    if tail.all isHexDigitC then
      if 2 ≤ utf8Len word ∧ word[0]? = some '0' ∧ word[1]? = some 'x' then
        some true
      else some false
    else some false

/-- Drop one leading sign character, as Rust float parsing does. -/
def stripSign (s : List Char) : List Char :=
  match s with
  | c :: rest => if c = '+' ∨ c = '-' then rest else s
  | [] => s

/-- The case-insensitive special float names Rust accepts. -/
def f64Special (s : List Char) : Bool :=
  (s.map Char.toLower = "inf".toList) ||
    (s.map Char.toLower = "infinity".toList) ||
    (s.map Char.toLower = "nan".toList)

/-- Optional exponent suffix of a Rust float literal: `e`/`E`, an optional
sign, then at least one decimal digit. -/
def f64Exp (s : List Char) : Bool :=
  match s with
  | [] => true
  | e :: rest =>
    if e = 'e' ∨ e = 'E' then
      let rest2 := stripSign rest
      !rest2.isEmpty && rest2.all Char.isDigit
    else false

/-- Mantissa-plus-exponent form of a Rust float literal: decimal digits
with an optional decimal point (at least one digit overall), then an
optional exponent. -/
def f64Number (s : List Char) : Bool :=
  let ds1 := s.takeWhile Char.isDigit
  let r1 := s.dropWhile Char.isDigit
  match r1 with
  | '.' :: r2 =>
    let ds2 := r2.takeWhile Char.isDigit
    let r3 := r2.dropWhile Char.isDigit
    decide (0 < ds1.length + ds2.length) && f64Exp r3
  | _ => decide (0 < ds1.length) && f64Exp r1

/-- Acceptance of Rust `str::parse::<f64>()` (the dec2flt grammar): an
optional sign, then `inf` / `infinity` / `nan` (case-insensitive) or a
decimal number with optional fraction and exponent.  Overflow never makes
the parse fail, so acceptance is exactly this grammar. -/
def parsesF64 (s : List Char) : Bool :=
  f64Special (stripSign s) || f64Number (stripSign s)

/-- `determine_kind` from main.rs; `none` models a panic inside `is_hex`.
The keyword loop runs first, then the operator loop, then
`token.parse::<f64>().is_ok() || is_hex(token)` — Rust's `||` short
circuits, so `is_hex` only runs when the float parse fails. -/
def determine_kind (token : List Char) : Option TokenKind :=
  if token ∈ KEYWORDS then some TokenKind.Keyword
  else if token ∈ OPERATORS then some TokenKind.Operator
  else if parsesF64 token then some TokenKind.Numeric
  else
    match is_hex token with
    | none => none
    | some true => some TokenKind.Numeric
    | some false => some TokenKind.Word

/-- Token construction in `lex`: file "main.rs", row 0, column = the
recorded segment start. -/
def mkToken (v : List Char) (start : Nat) (k : TokenKind) : Token :=
  ⟨v, ⟨"main.rs".toList, 0, start⟩, k⟩

/-- The character-scanning loop of `lex`: `curr` is the accumulation
buffer, `col` counts characters seen (incremented once per character, at
the top of each iteration), `start` is the column recorded for the current
segment (updated only at delimiter boundaries).  `none` models a panic
raised by `determine_kind`.  (Rust keeps `col` in a `u16`; no claim
depends on position values, and on inputs short enough not to overflow
they agree with this `Nat` model.) -/
def lexGo : List Char → List Char → Nat → Nat → List Token → Option (List Token)
  | [], curr, _, start, acc =>
    match determine_kind (trim_newlines curr) with
    | none => none
    | some k => some (acc ++ [mkToken (trim_newlines curr) start k])
  | ch :: rest, curr, col, start, acc =>
    if ch = ' ' then
      match determine_kind (trim_newlines curr) with
      | none => none
      | some k =>
        lexGo rest [] (col + 1) (col + 1) (acc ++ [mkToken (trim_newlines curr) start k])
    else lexGo rest (curr ++ [ch]) (col + 1) start acc

/-- `lex` from main.rs. -/
def lex (text : List Char) : Option (List Token) := lexGo text [] 0 0 []

/-- The space-delimited segments that `lex` feeds to `determine_kind`
(before trimming), in scan order; mirrors `lexGo`'s buffer management,
including the final (possibly empty) segment. -/
def segsFrom : List Char → List Char → List (List Char)
  | [], curr => [curr]
  | ch :: rest, curr =>
    if ch = ' ' then curr :: segsFrom rest [] else segsFrom rest (curr ++ [ch])

/-- All segments of an input text. -/
def segments (text : List Char) : List (List Char) := segsFrom text []

/-- The mutable state of `parse`: cursor `t_id`, result map `hash`
(modelled as an association list whose keys stay unique), and
`last_key`. -/
structure ParseState where
  t_id : Nat
  hash : List (List Char × List Char)
  last_key : List Char
deriving DecidableEq

/-- The two distinct panics `parse` can raise: the `let`-not-followed-by-a
-`Word` diagnostic, carrying the offending position and the unexpected
token's value and kind; and the empty-input panic (`tokens.len() - 1`
underflows in debug builds, `tokens[0]` is out of bounds in release
builds). -/
inductive PanicInfo where
  | letErr (pos : Pos) (val : List Char) (kind : TokenKind)
  | emptyTokens
deriving DecidableEq

/-- Result of one iteration of the parser loop body. -/
inductive StepResult where
  | panicked (e : PanicInfo)
  | ok (s : ParseState)
deriving DecidableEq

/-- `HashMap::insert`: overwrite the value at an existing key, otherwise
add the binding. -/
def insertKV : List (List Char × List Char) → List Char → List Char → List (List Char × List Char)
  | [], k, v => [(k, v)]
  | (k', v') :: rest, k, v =>
    if k' = k then (k, v) :: rest else (k', v') :: insertKV rest k v

/-- One iteration of the `while` loop body of `parse`.  The two `if`s of
the `Keyword` arm are sequential and independent in the Rust source (both
test the already-cloned `curr_token`), which is modelled by threading the
state of the first through the second; the `Operator` arm mutates nothing
when the value is not `"="`, and the catch-all arm (`Word`, `Numeric`)
advances the cursor by 1. -/
def parseStepF (tokens : List Token) (s : ParseState) : StepResult :=
  let cur := tokens.getD s.t_id default
  let nxt := tokens.getD (s.t_id + 1) default
  match cur.kind with
  | TokenKind.Keyword =>
    if cur.value = "let".toList then
      if nxt.kind ≠ TokenKind.Word then
        StepResult.panicked (PanicInfo.letErr cur.position nxt.value nxt.kind)
      else
        let s1 : ParseState := ⟨s.t_id + 2, s.hash, nxt.value⟩
        if cur.value = "be".toList then
          StepResult.ok ⟨s1.t_id + 2, insertKV s1.hash s1.last_key nxt.value, s1.last_key⟩
        else StepResult.ok s1
    else
      if cur.value = "be".toList then
        StepResult.ok ⟨s.t_id + 2, insertKV s.hash s.last_key nxt.value, s.last_key⟩
      else StepResult.ok s
  | TokenKind.Operator =>
    if cur.value = "=".toList then
      StepResult.ok ⟨s.t_id + 2, insertKV s.hash s.last_key nxt.value, s.last_key⟩
    else StepResult.ok s
  | _ => StepResult.ok ⟨s.t_id + 1, s.hash, s.last_key⟩

/-- Outcome of running the parser loop under a fuel bound. -/
inductive ParseResult where
  | ok (hash : List (List Char × List Char))
  | panicked (e : PanicInfo)
  | outOfFuel
deriving DecidableEq

/-- The `while t_id < tokens.len() - 1` loop of `parse`, fuel-indexed. -/
def parseLoop (tokens : List Token) : Nat → ParseState → ParseResult
  | 0, _ => ParseResult.outOfFuel
  | fuel + 1, s =>
    if s.t_id < tokens.length - 1 then
      match parseStepF tokens s with
      | StepResult.panicked e => ParseResult.panicked e
      | StepResult.ok s' => parseLoop tokens fuel s'
    else ParseResult.ok s.hash

/-- The parser's initial state: `t_id = 0`, empty map, empty
`last_key`. -/
def initState : ParseState := ⟨0, [], []⟩

/-- `parse` from main.rs.  On the empty token sequence Rust's
`tokens.len() - 1` underflows the `usize` (debug: arithmetic-overflow
panic; release: wraps to `usize::MAX`, after which `tokens[0]` panics out
of bounds), modelled as an immediate panic. -/
def parse (tokens : List Token) (fuel : Nat) : ParseResult :=
  if tokens.isEmpty then ParseResult.panicked PanicInfo.emptyTokens
  else parseLoop tokens fuel initState

/-- The pipeline `main` runs: lex, then parse. -/
def pipeline (text : List Char) (fuel : Nat) : Option ParseResult :=
  (lex text).map (fun ts => parse ts fuel)

/-- The parser's single in-loop error condition: the current token is the
keyword `let` and the following token is not a `Word`. -/
def badLetAt (tokens : List Token) (s : ParseState) : Prop :=
  (tokens.getD s.t_id default).kind = TokenKind.Keyword ∧
    (tokens.getD s.t_id default).value = "let".toList ∧
    (tokens.getD (s.t_id + 1) default).kind ≠ TokenKind.Word

/-- The states the parser loop visits: reflexive-transitive closure of
non-panicking loop iterations taken inside the loop bound. -/
inductive Reaches (tokens : List Token) : ParseState → ParseState → Prop where
  | refl (s : ParseState) : Reaches tokens s s
  | step {s s' s'' : ParseState} : s.t_id < tokens.length - 1 →
      parseStepF tokens s = StepResult.ok s' → Reaches tokens s' s'' →
      Reaches tokens s s''

/-- Position used for the hand-built token sequences in the theorems
below (positions never influence parsing decisions). -/
def pos0 : Pos := ⟨"main.rs".toList, 0, 0⟩

/-- A `let` keyword token. -/
def letTok : Token := ⟨"let".toList, pos0, TokenKind.Keyword⟩

/-- A `be` keyword token. -/
def beTok : Token := ⟨"be".toList, pos0, TokenKind.Keyword⟩

/-- An `fn` keyword token: the keyword that is neither `let` nor `be`. -/
def fnTok : Token := ⟨"fn".toList, pos0, TokenKind.Keyword⟩

/-- A `Word` token with value "x". -/
def wordTok : Token := ⟨"x".toList, pos0, TokenKind.Word⟩

/-- A `Numeric` token with value "5". -/
def numTok : Token := ⟨"5".toList, pos0, TokenKind.Numeric⟩

/-- An `Operator` token whose value is not `"="`. -/
def plusTok : Token := ⟨"+".toList, pos0, TokenKind.Operator⟩

/-! ## Lemmas about `trim_newlines` -/

theorem trimAux_idem (r : List Char) : trimAux (trimAux r) = trimAux r := by
  induction r with
  | nil => rfl
  | cons c rest ih =>
    by_cases h : c = '\n' ∨ c = '\r'
    · simpa [trimAux, h] using ih
    · simp [trimAux, h]

theorem trimAux_decomp (r : List Char) :
    ∃ u, r = u ++ trimAux r ∧ ∀ c ∈ u, c = '\n' ∨ c = '\r' := by
  induction r with
  | nil => exact ⟨[], rfl, by simp⟩
  | cons c rest ih =>
    by_cases h : c = '\n' ∨ c = '\r'
    · obtain ⟨u, hu, hm⟩ := ih
      refine ⟨c :: u, ?_, ?_⟩
      · simpa [trimAux, h] using hu
      · intro d hd
        rcases List.mem_cons.mp hd with rfl | hd
        · exact h
        · exact hm d hd
    · exact ⟨[], by simp [trimAux, h], by simp⟩

theorem getLast?_ne_nil {s : List Char} {c : Char} (h : s.getLast? = some c) :
    s ≠ [] := by
  intro he
  subst he
  simp at h

theorem trim_newlines_popIfLast (s : List Char) (c : Char)
    (hc : c = '\n' ∨ c = '\r') :
    trim_newlines (popIfLast s c) = trim_newlines s := by
  unfold popIfLast
  by_cases h : s.getLast? = some c
  · rw [if_pos h]
    have hne : s ≠ [] := getLast?_ne_nil h
    have h2 : s.getLast hne = c := by
      have h3 := List.getLast?_eq_getLast s hne
      rw [h3] at h
      exact Option.some.inj h
    have hdec : s.dropLast ++ [c] = s := by
      rw [← h2]
      exact List.dropLast_concat_getLast hne
    conv_rhs => rw [← hdec]
    unfold trim_newlines
    rw [List.reverse_append]
    simp only [List.reverse_cons, List.reverse_nil, List.nil_append,
      List.singleton_append]
    rw [show trimAux (c :: s.dropLast.reverse) = trimAux s.dropLast.reverse by
      simp [trimAux, hc]]
  · rw [if_neg h]

theorem trim_newlines_of_ne (s : List Char) (h1 : s.getLast? ≠ some '\n')
    (h2 : s.getLast? ≠ some '\r') : trim_newlines s = s := by
  cases s using List.reverseRecOn with
  | nil => rfl
  | append_singleton l a =>
    rw [List.getLast?_concat] at h1 h2
    have ha : ¬(a = '\n' ∨ a = '\r') := by
      rintro (rfl | rfl)
      · exact h1 rfl
      · exact h2 rfl
    unfold trim_newlines
    rw [List.reverse_append]
    simp only [List.reverse_cons, List.reverse_nil, List.nil_append,
      List.singleton_append]
    rw [show trimAux (a :: l.reverse) = a :: l.reverse by simp [trimAux, ha]]
    simp

/-- Fidelity of the `trim_newlines` model: it satisfies exactly the step
equation of the Rust `while s.ends_with` loop (pop a trailing newline,
then a trailing carriage return, and repeat while one of the two ends the
string). -/
theorem trim_newlines_eq_loop (s : List Char) :
    trim_newlines s =
      if s.getLast? = some '\n' ∨ s.getLast? = some '\r' then
        trim_newlines (popIfLast (popIfLast s '\n') '\r')
      else s := by
  by_cases h : s.getLast? = some '\n' ∨ s.getLast? = some '\r'
  · rw [if_pos h, trim_newlines_popIfLast _ '\r' (Or.inr rfl),
      trim_newlines_popIfLast _ '\n' (Or.inl rfl)]
  · push_neg at h
    rw [if_neg (by push_neg; exact h)]
    exact trim_newlines_of_ne s h.1 h.2

/-- Claim C6: `trim_newlines` is idempotent, and it only removes a
trailing run of newline / carriage-return characters: the result is a
prefix of the input (interior characters untouched) and the removed suffix
consists solely of such characters. -/
theorem C6_trim_newlines_props (s : List Char) :
    trim_newlines (trim_newlines s) = trim_newlines s ∧
      ∃ t, s = trim_newlines s ++ t ∧ ∀ c ∈ t, c = '\n' ∨ c = '\r' := by
  constructor
  · unfold trim_newlines
    rw [List.reverse_reverse, trimAux_idem]
  · obtain ⟨u, hu, hmem⟩ := trimAux_decomp s.reverse
    refine ⟨u.reverse, ?_, ?_⟩
    · have h := congrArg List.reverse hu
      rw [List.reverse_reverse, List.reverse_append] at h
      exact h
    · intro c hc
      exact hmem c (List.mem_reverse.mp hc)

/-! ## Lemmas about the parser loop -/

theorem parseStepF_panicked_iff (tokens : List Token) (s : ParseState) :
    (∃ e, parseStepF tokens s = StepResult.panicked e) ↔ badLetAt tokens s := by
  simp only [parseStepF]
  unfold badLetAt
  generalize (tokens.getD (s.t_id + 1) default) = nxt
  generalize (tokens.getD s.t_id default) = cur
  obtain ⟨cv, cp, ck⟩ := cur
  obtain ⟨nv, np, nk⟩ := nxt
  cases ck with
  | Word => simp
  | Numeric => simp
  | Operator => by_cases he : cv = ['='] <;> simp [he]
  | Keyword =>
    by_cases hlet : cv = ['l', 'e', 't']
    · by_cases hw : nk = TokenKind.Word
      · simp [hlet, hw]
      · simp [hlet, hw]
    · by_cases hbe : cv = ['b', 'e'] <;> simp [hlet, hbe]

theorem parseStepF_panicked_letErr {tokens : List Token} {s : ParseState}
    {e : PanicInfo} (h : parseStepF tokens s = StepResult.panicked e) :
    ∃ p v k, e = PanicInfo.letErr p v k := by
  simp only [parseStepF] at h
  repeat' split at h
  all_goals cases h
  exact ⟨_, _, _, rfl⟩

theorem parseLoop_stuck (tokens : List Token) (s : ParseState)
    (hg : s.t_id < tokens.length - 1)
    (hs : parseStepF tokens s = StepResult.ok s) :
    ∀ fuel, parseLoop tokens fuel s = ParseResult.outOfFuel := by
  intro fuel
  induction fuel with
  | zero => rfl
  | succ n ih => simp [parseLoop, hg, hs, ih]

theorem parseLoop_panicked_reaches (tokens : List Token) :
    ∀ (fuel : Nat) (s : ParseState) (e : PanicInfo),
      parseLoop tokens fuel s = ParseResult.panicked e →
      ∃ s', Reaches tokens s s' ∧ s'.t_id < tokens.length - 1 ∧
        badLetAt tokens s' := by
  intro fuel
  induction fuel with
  | zero => intro s e h; simp [parseLoop] at h
  | succ n ih =>
    intro s e h
    simp only [parseLoop] at h
    by_cases hg : s.t_id < tokens.length - 1
    · rw [if_pos hg] at h
      cases hstep : parseStepF tokens s with
      | panicked e0 =>
        exact ⟨s, Reaches.refl s, hg, (parseStepF_panicked_iff tokens s).mp ⟨e0, hstep⟩⟩
      | ok s1 =>
        rw [hstep] at h
        obtain ⟨s', hr, hg', hb⟩ := ih s1 e h
        exact ⟨s', Reaches.step hg hstep hr, hg', hb⟩
    · rw [if_neg hg] at h
      cases h

theorem parseLoop_panicked_letErr (tokens : List Token) :
    ∀ (fuel : Nat) (s : ParseState) (e : PanicInfo),
      parseLoop tokens fuel s = ParseResult.panicked e →
      ∃ p v k, e = PanicInfo.letErr p v k := by
  intro fuel
  induction fuel with
  | zero => intro s e h; simp [parseLoop] at h
  | succ n ih =>
    intro s e h
    simp only [parseLoop] at h
    by_cases hg : s.t_id < tokens.length - 1
    · rw [if_pos hg] at h
      cases hstep : parseStepF tokens s with
      | panicked e0 =>
        rw [hstep] at h
        injection h with he
        subst he
        exact parseStepF_panicked_letErr hstep
      | ok s1 =>
        rw [hstep] at h
        exact ih s1 e h
    · rw [if_neg hg] at h
      cases h

theorem reaches_badLet_panics {tokens : List Token} {s s' : ParseState}
    (hr : Reaches tokens s s') :
    s'.t_id < tokens.length - 1 → badLetAt tokens s' →
    ∃ fuel e, parseLoop tokens fuel s = ParseResult.panicked e := by
  induction hr with
  | refl s0 =>
    intro hg hb
    obtain ⟨e, he⟩ := (parseStepF_panicked_iff tokens s0).mpr hb
    exact ⟨1, e, by simp [parseLoop, hg, he]⟩
  | step hg0 hstep hr' ih =>
    intro hg hb
    obtain ⟨fuel, e, hf⟩ := ih hg hb
    exact ⟨fuel + 1, e, by simp [parseLoop, hg0, hstep, hf]⟩

theorem parse_eq_parseLoop {tokens : List Token} (hne : tokens ≠ []) (fuel : Nat) :
    parse tokens fuel = parseLoop tokens fuel initState := by
  cases tokens with
  | nil => exact absurd rfl hne
  | cons a l => rfl

/-! ## Lemmas about the lexer -/

theorem sliceFrom2_eq_none_of_short {w : List Char} (h : utf8Len w < 2) :
    sliceFrom2 w = none := by
  cases w with
  | nil => rfl
  | cons c rest =>
    have hc := c.utf8Size_pos
    cases rest with
    | nil =>
      have h1 : c.utf8Size = 1 := by
        simp [utf8Len] at h
        omega
      simp [sliceFrom2, h1]
    | cons c2 rest2 =>
      have hc2 := c2.utf8Size_pos
      exfalso
      simp [utf8Len] at h
      omega

theorem lexGo_none_of_badSeg :
    ∀ (chars curr : List Char) (col start : Nat) (acc : List Token),
      (∃ seg ∈ segsFrom chars curr, determine_kind (trim_newlines seg) = none) →
      lexGo chars curr col start acc = none := by
  intro chars
  induction chars with
  | nil =>
    intro curr col start acc h
    obtain ⟨seg, hmem, hbad⟩ := h
    simp [segsFrom] at hmem
    subst hmem
    simp [lexGo, hbad]
  | cons ch rest ih =>
    intro curr col start acc h
    obtain ⟨seg, hmem, hbad⟩ := h
    by_cases hch : ch = ' '
    · subst hch
      simp [segsFrom] at hmem
      cases hdk : determine_kind (trim_newlines curr) with
      | none => simp [lexGo, hdk]
      | some k =>
        rcases hmem with rfl | hmem
        · rw [hdk] at hbad
          cases hbad
        · simp [lexGo, hdk]
          exact ih [] (col + 1) (col + 1) _ ⟨seg, hmem, hbad⟩
    · simp [segsFrom, hch] at hmem
      simp [lexGo, hch]
      exact ih (curr ++ [ch]) (col + 1) start _ ⟨seg, hmem, hbad⟩

/-! ## The claims -/

/-- Claim C1 (code bug): the spec's central scenario fails in the code.
On the input "let x be 5" the pipeline panics — `lex` dies inside
`is_hex` while classifying the one-byte segment "x", because `is_hex`
slices `word[2..]` before its `word.len() >= 2` check.  The parser half,
handed the token sequence the lexer was meant to produce, does return the
claimed mapping, which localises the bug in the lexer. -/
theorem C1_pipeline_panics :
    (∀ fuel, pipeline "let x be 5".toList fuel = none) ∧
      parse [letTok, wordTok, beTok, numTok] 3 =
        ParseResult.ok [("x".toList, "5".toList)] := by
  constructor
  · intro fuel
    have h : lex "let x be 5".toList = none := by decide
    simp only [pipeline]
    rw [h, Option.map_none']
  · decide

/-- Claim C2 (code bug): `lex` is not total.  On the empty input the
final (empty) segment reaches `determine_kind`, whose inner `is_hex`
panics slicing `""[2..]`; no token sequence is produced, contradicting
the claimed single empty `Word` token. -/
theorem C2_lex_empty_input_panics :
    lex "".toList = none ∧ determine_kind "".toList = none := by decide

/-- Claim C3, counterexample: a non-empty token sequence with no `let` at
all on which `parse` neither aborts nor returns a mapping — a `Keyword`
token `fn` is never advanced over, so the loop spins forever and no
amount of fuel yields a result.  This refutes "every other token sequence
is silently tolerated and parse returns a mapping". -/
theorem C3_counterexample :
    ¬ ∃ fuel h, parse [fnTok, wordTok] fuel = ParseResult.ok h := by
  rintro ⟨fuel, h, hh⟩
  rw [parse_eq_parseLoop (by decide) fuel] at hh
  rw [parseLoop_stuck [fnTok, wordTok] initState (by decide) (by decide) fuel] at hh
  cases hh

/-- Claim C3 (amended): for every non-empty token sequence, `parse`
aborts fatally (for some fuel) exactly when the scan reaches a `Keyword`
token "let" whose immediately following token is not of kind `Word`; and
every abort is that `let` diagnostic (carrying the offending position and
the unexpected token's value and kind).  Other token sequences never
abort — but they need not return a mapping, since the loop can also spin
forever (see the counterexample). -/
theorem C3_parse_abort_iff (tokens : List Token) (hne : tokens ≠ []) :
    ((∃ fuel e, parse tokens fuel = ParseResult.panicked e) ↔
      ∃ s, Reaches tokens initState s ∧ s.t_id < tokens.length - 1 ∧
        badLetAt tokens s) ∧
    ∀ fuel e, parse tokens fuel = ParseResult.panicked e →
      ∃ p v k, e = PanicInfo.letErr p v k := by
  constructor
  · constructor
    · rintro ⟨fuel, e, h⟩
      rw [parse_eq_parseLoop hne fuel] at h
      exact parseLoop_panicked_reaches tokens fuel initState e h
    · rintro ⟨s, hr, hg, hb⟩
      obtain ⟨fuel, e, hf⟩ := reaches_badLet_panics hr hg hb
      exact ⟨fuel, e, by rw [parse_eq_parseLoop hne fuel]; exact hf⟩
  · intro fuel e h
    rw [parse_eq_parseLoop hne fuel] at h
    exact parseLoop_panicked_letErr tokens fuel initState e h

/-- Witness for C3: on `let 5` (a `let` followed by a `Numeric`), the
abort condition is reached at the initial state, so some fuel makes
`parse` panic. -/
theorem C3_witness :
    ∃ fuel e, parse [letTok, numTok] fuel = ParseResult.panicked e :=
  (C3_parse_abort_iff [letTok, numTok] (by decide)).1.mpr
    ⟨initState, Reaches.refl initState, by decide, rfl, rfl, by decide⟩

/-- Claim C4, counterexample: an `Operator` token whose value is not "="
does NOT advance the cursor by 1 — the step leaves the state completely
unchanged (the `Operator` arm only acts on "=", and the catch-all arm
covers just `Word`/`Numeric`). -/
theorem C4_counterexample :
    parseStepF [plusTok, wordTok] initState = StepResult.ok initState ∧
      ¬ ∃ h k, parseStepF [plusTok, wordTok] initState =
        StepResult.ok ⟨initState.t_id + 1, h, k⟩ := by
  constructor
  · decide
  · rintro ⟨h, k, hh⟩
    have h1 : parseStepF [plusTok, wordTok] initState = StepResult.ok initState := by
      decide
    rw [h1] at hh
    injection hh with h2
    have h3 := congrArg ParseState.t_id h2
    simp [initState] at h3

/-- Claim C4 (amended): when the current token (inside the loop bound)
has kind `Word` or `Numeric`, the parser advances the cursor by exactly 1
and leaves the bindings mapping (and `last_key`) unchanged; an `Operator`
token with value other than "=" instead leaves the whole state unchanged
(cursor not advanced), which makes the loop spin forever there. -/
theorem C4_skip_behavior (tokens : List Token) (s : ParseState)
    (hg : s.t_id < tokens.length - 1) :
    (((tokens.getD s.t_id default).kind = TokenKind.Word ∨
        (tokens.getD s.t_id default).kind = TokenKind.Numeric) →
      parseStepF tokens s = StepResult.ok ⟨s.t_id + 1, s.hash, s.last_key⟩) ∧
    ((tokens.getD s.t_id default).kind = TokenKind.Operator →
      (tokens.getD s.t_id default).value ≠ "=".toList →
      parseStepF tokens s = StepResult.ok s) := by
  constructor
  · intro hk
    rcases hk with hk | hk <;>
      · simp only [parseStepF]
        rw [hk]
  · intro hk hv
    simp only [parseStepF]
    rw [hk, if_neg hv]

/-- Witness for C4 (amended): a `Numeric` current token advances the
cursor from 0 to 1 with the empty mapping untouched. -/
theorem C4_witness :
    parseStepF [numTok, wordTok] initState = StepResult.ok ⟨1, [], []⟩ :=
  (C4_skip_behavior [numTok, wordTok] initState (by decide)).1 (Or.inr rfl)

/-- Claim C5: the seven classification facts about `determine_kind` from
the spec, including the boundary case `determine_kind "0x" = Numeric`. -/
theorem C5_determine_kind_values :
    determine_kind "let".toList = some TokenKind.Keyword ∧
      determine_kind "=".toList = some TokenKind.Operator ∧
      determine_kind "42".toList = some TokenKind.Numeric ∧
      determine_kind "0x1A".toList = some TokenKind.Numeric ∧
      determine_kind "0x".toList = some TokenKind.Numeric ∧
      determine_kind "0xg1".toList = some TokenKind.Word ∧
      determine_kind "foo".toList = some TokenKind.Word := by
  decide

/-- Claim C7: a `be` keyword reached inside the loop bound
unconditionally advances the cursor by 2 and inserts/overwrites
`last_key → next token's value`, with no validation of what preceded;
in particular a `be` with no prior `let` binds the empty string (the
initial `last_key`), as the concrete run shows. -/
theorem C7_be_binds_blindly :
    (∀ (tokens : List Token) (s : ParseState),
      s.t_id < tokens.length - 1 →
      (tokens.getD s.t_id default).kind = TokenKind.Keyword →
      (tokens.getD s.t_id default).value = "be".toList →
      parseStepF tokens s = StepResult.ok
        ⟨s.t_id + 2,
          insertKV s.hash s.last_key (tokens.getD (s.t_id + 1) default).value,
          s.last_key⟩) ∧
      parse [beTok, numTok] 2 = ParseResult.ok [([], "5".toList)] := by
  constructor
  · intro tokens s hg hk hv
    simp only [parseStepF]
    rw [hk, hv, if_neg (by decide : ¬("be".toList = "let".toList)), if_pos rfl]
  · decide

/-- Witness for C7: a `be` at the initial state binds the empty key to
the next token's value "5". -/
theorem C7_witness :
    parseStepF [beTok, numTok] initState =
      StepResult.ok ⟨2, [([], "5".toList)], []⟩ :=
  C7_be_binds_blindly.1 [beTok, numTok] initState (by decide) rfl rfl

/-- Claim C8: every segment of byte length below 2 that is neither a
keyword nor an operator and does not parse as an `f64` makes
`determine_kind` panic (because `is_hex` slices `word[2..]` before the
length check); consequently `lex` panics on any input one of whose
segments trims to such a string — concretely on "a", on input ending in
a space, and on input with two consecutive spaces (whose empty segment
reaches `determine_kind`). -/
theorem C8_short_segment_panics :
    (∀ w : List Char, utf8Len w < 2 → w ∉ KEYWORDS → w ∉ OPERATORS →
      parsesF64 w = false → determine_kind w = none) ∧
    (∀ text : List Char,
      (∃ seg ∈ segments text, determine_kind (trim_newlines seg) = none) →
      lex text = none) ∧
    determine_kind "a".toList = none ∧ determine_kind "x".toList = none ∧
    determine_kind "".toList = none ∧ lex "a".toList = none ∧
    lex "5 ".toList = none ∧ lex "5  5".toList = none := by
  refine ⟨?_, ?_, by decide, by decide, by decide, by decide, by decide, by decide⟩
  · intro w h1 h2 h3 h4
    simp only [determine_kind]
    rw [if_neg h2, if_neg h3, if_neg (by simp [h4])]
    simp [is_hex, sliceFrom2_eq_none_of_short h1]
  · intro text h
    exact lexGo_none_of_badSeg text [] 0 0 [] h

/-- Witness for C8: the general parts applied at the one-byte word "q"
and at the input "q w" whose first segment is that word. -/
theorem C8_witness :
    determine_kind "q".toList = none ∧ lex "q w".toList = none :=
  ⟨C8_short_segment_panics.1 "q".toList (by decide) (by decide) (by decide)
      (by decide),
    C8_short_segment_panics.2.1 "q w".toList ⟨"q".toList, by decide, by decide⟩⟩

/-- Claim C9: a `Keyword` token whose value is neither "let" nor "be"
(such as `fn`), or an `Operator` token whose value is not "=", reached as
the current token inside the loop bound, is never advanced over: no
branch changes the state, so the loop repeats the same iteration forever
and `parse` does not terminate (every fuel runs out). -/
theorem C9_nonterminating_tokens (tokens : List Token) (s : ParseState)
    (fuel : Nat) (hg : s.t_id < tokens.length - 1)
    (hc : ((tokens.getD s.t_id default).kind = TokenKind.Keyword ∧
        (tokens.getD s.t_id default).value ≠ "let".toList ∧
        (tokens.getD s.t_id default).value ≠ "be".toList) ∨
      ((tokens.getD s.t_id default).kind = TokenKind.Operator ∧
        (tokens.getD s.t_id default).value ≠ "=".toList)) :
    parseLoop tokens fuel s = ParseResult.outOfFuel := by
  have hs : parseStepF tokens s = StepResult.ok s := by
    rcases hc with ⟨hk, h1, h2⟩ | ⟨hk, h1⟩
    · simp only [parseStepF]
      rw [hk, if_neg h1, if_neg h2]
    · simp only [parseStepF]
      rw [hk, if_neg h1]
  exact parseLoop_stuck tokens s hg hs fuel

/-- Witness for C9: on the sequence `fn x` no amount of fuel (here 7)
finishes the loop. -/
theorem C9_witness :
    parseLoop [fnTok, wordTok] 7 initState = ParseResult.outOfFuel :=
  C9_nonterminating_tokens [fnTok, wordTok] initState 7 (by decide)
    (Or.inl ⟨rfl, by decide, by decide⟩)

/-- Claim C10: `parse` on the empty token sequence panics
(`tokens.len() - 1` underflows in debug builds; in release builds the
wrapped bound lets `tokens[0]` index out of bounds) instead of returning
an empty mapping. -/
theorem C10_parse_empty_panics :
    ∀ fuel, parse [] fuel = ParseResult.panicked PanicInfo.emptyTokens :=
  fun _ => rfl

end RT
